import Mathlib

/-!
Verification of the `logs` subcommand of the cloud plugin
(src/src/commands/logs.rs), against its design specification.

Shallow embedding conventions:
* Rust `&str` / `String` values are modelled as `List Char`.
* Rust `u64` is modelled as `Nat` together with the explicit bound `U64SIZE = 2 ^ 64`;
  `str::parse::<u64>` is modelled by `parseU64` (optional leading '+', one or more
  ASCII digits, value below `2 ^ 64`), and u64 multiplication wraps modulo `2 ^ 64`
  (release-build semantics); the theorems below stay in ranges where wrapping
  cannot occur, except where overflow itself is the point.
* `anyhow::Result<T>` is modelled as `Except (List Char) T` (the error text matters
  only in that it exists, except where a claim speaks about its content).
* The external cloud client is a function parameter, and `println!` output is
  collected in a list of printed lines.
* A Rust panic (from `Option::unwrap` on `None`) is modelled as the `none` result
  of an `Option`-valued function.
-/

deriving instance DecidableEq for Except

/-- Size bound of the Rust `u64` type. -/
def U64SIZE : Nat := 2 ^ 64

/-- Numeric value of a decimal digit character, as Rust computes it
(`c as u64 - '0' as u64`). -/
def charDigitVal (c : Char) : Nat := c.toNat - 48

/-- Value of a big-endian list of decimal digit characters. -/
def digitsVal (cs : List Char) : Nat :=
  cs.foldl (fun a c => a * 10 + charDigitVal c) 0

/-- Core of Rust `u64::from_str` after the optional sign has been stripped:
one or more ASCII digit characters whose value fits in a `u64`. -/
def parseU64core (cs : List Char) : Option Nat :=
  if cs = [] then none
  else if cs.all Char.isDigit then
    if digitsVal cs < U64SIZE then some (digitsVal cs) else none
  else none

/-- Model of Rust `str::parse::<u64>`: an optional leading '+' (a '-' is rejected
for unsigned types), then one or more ASCII digits, value below `2 ^ 64`. -/
def parseU64 (cs : List Char) : Option Nat :=
  match cs with
  | [] => none
  | c :: rest => if c = '+' then parseU64core rest else parseU64core (c :: rest)

/-- Model of Rust `str::strip_suffix(c)`: strip a final character `c` when present. -/
def stripSuffix (cs : List Char) (c : Char) : Option (List Char) :=
  match cs.reverse with
  | [] => none
  | x :: rest => if x = c then some rest.reverse else none

/-- Decimal numeral of `n`, most significant digit first (auxiliary, fuel-driven:
the fuel only needs to dominate the number of digits). -/
def natCharsAux : Nat → Nat → List Char
  | 0, _ => []
  | fuel + 1, n =>
    if n = 0 then []
    else natCharsAux fuel (n / 10) ++ [Nat.digitChar (n % 10)]

/-- Decimal numeral of a natural number, e.g. `natChars 30 = ['3', '0']`:
the string written `"<n>"` in the specification. -/
def natChars (n : Nat) : List Char :=
  if n = 0 then ['0'] else natCharsAux n n

/-- Embedding of `parse_duration` (src/src/commands/logs.rs:148-168).
The result is the duration's number of seconds (`Duration::from_secs` keeps a
`u64` seconds count); the multiplications are u64 multiplications. -/
def parse_duration (arg : List Char) : Except (List Char) Nat :=
  match stripSuffix arg 's' with
  | some parg =>
    match parseU64 parg with
    | some value => .ok value
    | none => .error ("invalid digit found in string".toList)
  | none =>
  match stripSuffix arg 'm' with
  | some parg =>
    match parseU64 parg with
    | some value => .ok (value * 60 % U64SIZE)
    | none => .error ("invalid digit found in string".toList)
  | none =>
  match stripSuffix arg 'h' with
  | some parg =>
    match parseU64 parg with
    | some value => .ok (value * 60 * 60 % U64SIZE)
    | none => .error ("invalid digit found in string".toList)
  | none =>
  match stripSuffix arg 'd' with
  | some parg =>
    match parseU64 parg with
    | some value => .ok (value * 24 * 60 * 60 % U64SIZE)
    | none => .error ("invalid digit found in string".toList)
  | none =>
    .error ("supported formats are 300s, 5m, 4h or 1d".toList)

/-- Embedding of `parse_interval` (src/src/commands/logs.rs:170-177). -/
def parse_interval (arg : List Char) : Except (List Char) Nat :=
  match parseU64 arg with
  | none => .error ("invalid digit found in string".toList)
  | some interval =>
    if interval < 2 then .error ("interval cannot be less than 2 seconds".toList)
    else .ok interval

/-- True exactly on the `ok` constructor of an `Except` value. -/
def exceptOk {ε α : Type} : Except ε α → Bool
  | .ok _ => true
  | .error _ => false

/-- The shape "a string accepted by the u64 parser followed by exactly one of the
suffix letters s, m, h, d": the valid-input shape named by the specification of
the duration parser. -/
def isDurationForm (arg : List Char) : Bool :=
  match arg.reverse with
  | [] => false
  | c :: rest =>
    (c = 's' || c = 'm' || c = 'h' || c = 'd') && (parseU64 rest.reverse).isSome

/-- Embedding of the OpenAPI model `LogLine`: a timestamp and a text, both
nullable on the wire. -/
structure LogLine where
  time : Option (List Char)
  line : Option (List Char)
deriving DecidableEq

/-- Embedding of the OpenAPI model `Entry`: a nullable list of log lines. -/
structure Entry where
  log_lines : Option (List LogLine)
deriving DecidableEq

/-- Inner loop of `print_lastn_logs`: process the lines of one entry in stored
order, appending each printed text to the output and updating `new_since` to the
line's timestamp. A missing text or timestamp is an `unwrap` panic, modelled as
`none`. The accumulator is the pair (printed lines so far, current new_since). -/
def printEntryLines : List LogLine → List (List Char) × List Char →
    Option (List (List Char) × List Char)
  | [], acc => some acc
  | l :: ls, acc =>
    match l.line, l.time with
    | some txt, some t => printEntryLines ls (acc.1 ++ [txt], t)
    | _, _ => none

/-- Outer loop of `print_lastn_logs` over an already-reversed entry list; a
missing `log_lines` is an `unwrap` panic, modelled as `none`. -/
def printEntriesRev : List Entry → List (List Char) × List Char →
    Option (List (List Char) × List Char)
  | [], acc => some acc
  | e :: es, acc =>
    match e.log_lines with
    | some ls =>
      match printEntryLines ls acc with
      | some acc2 => printEntriesRev es acc2
      | none => none
    | none => none

/-- Embedding of `print_lastn_logs` (src/src/commands/logs.rs:135-146): iterate
the entries in reverse, print every line, return the last printed line's
timestamp (initially the empty string). The result is
(lines printed to stdout in order, returned new_since), or `none` for a panic. -/
def print_lastn_logs (entries : List Entry) :
    Option (List (List Char) × List Char) :=
  printEntriesRev entries.reverse ([], [])

/-- Embedding of `fetch_logs_and_print_once` (src/src/commands/logs.rs:117-133).
The cloud client's `channel_logs_raw` (with the channel id already applied) is
the function parameter `fetch`; a transport error is `Except.error`, and
`Except.ok none` is a panic inside `print_lastn_logs`. On success the result
carries (printed lines, new since value). -/
def fetch_logs_and_print_once {E : Type}
    (fetch : Option Int → List Char → Except E (List Entry))
    (max_lines : Option Int) (since : List Char) :
    Except E (Option (List (List Char) × List Char)) :=
  match fetch max_lines since with
  | .error e => .error e
  | .ok entries =>
    if entries.isEmpty then .ok (some ([], since))
    else .ok (print_lastn_logs entries)

/-- Observable scheduling events of the fetch loop: a call to the log endpoint
(with its max_lines argument and since cursor) or a sleep of a number of seconds. -/
inductive LoopEvent where
  | fetchEv (max_lines : Option Int) (since : List Char)
  | sleepEv (secs : Nat)
deriving DecidableEq

/-- Outcome of running the fetch loop for a bounded number of iterations:
returned `Ok(())`, propagated a fetch error, panicked, or still running with
the current cursor (the infinite `loop` has consumed all the fuel). -/
inductive LoopOutcome (E : Type) where
  | ok : LoopOutcome E
  | err : E → LoopOutcome E
  | panicked : LoopOutcome E
  | running : List Char → LoopOutcome E
deriving DecidableEq

/-- The infinite `loop { sleep; fetch_logs_and_print_once(..., None, ...) }` of
`fetch_logs_and_print_loop`, unrolled `fuel` times. Returns the emitted events
and the outcome. -/
def loopFollow {E : Type} (fetch : Option Int → List Char → Except E (List Entry))
    (interval : Nat) : Nat → List Char → List LoopEvent × LoopOutcome E
  | 0, s => ([], .running s)
  | fuel + 1, s =>
    match fetch_logs_and_print_once fetch none s with
    | .error e => ([.sleepEv interval, .fetchEv none s], .err e)
    | .ok none => ([.sleepEv interval, .fetchEv none s], .panicked)
    | .ok (some (_, s2)) =>
      let r := loopFollow fetch interval fuel s2
      (.sleepEv interval :: .fetchEv none s :: r.1, r.2)

/-- Embedding of `fetch_logs_and_print_loop` (src/src/commands/logs.rs:94-115).
The initial cursor `since0` stands for the RFC3339 rendering of
`Utc::now() - since`, which involves the wall clock and is taken as a parameter.
`fuel` bounds how many iterations of the infinite follow loop are observed. -/
def fetch_logs_and_print_loop {E : Type}
    (fetch : Option Int → List Char → Except E (List Entry))
    (follow : Bool) (interval : Nat) (max_lines : Option Int)
    (since0 : List Char) (fuel : Nat) : List LoopEvent × LoopOutcome E :=
  match fetch_logs_and_print_once fetch max_lines since0 with
  | .error e => ([.fetchEv max_lines since0], .err e)
  | .ok none => ([.fetchEv max_lines since0], .panicked)
  | .ok (some (_, s1)) =>
    if follow then
      let r := loopFollow fetch interval fuel s1
      (.fetchEv max_lines since0 :: r.1, r.2)
    else ([.fetchEv max_lines since0], .ok)

/-- Errors produced by `LogsCommand::logs`, keeping the structure of the anyhow
messages: both app-resolution failures name the app in a "not found" message
(the first also wraps the client error), the channel failure names the app, and
a loop failure propagates. -/
inductive LogsError (E : Type) where
  | appNotFound (app : List Char) (clientErr : Option E)
  | channelNotFound (app : List Char) (clientErr : E)
  | loopFailed (e : E)
deriving DecidableEq

/-- Embedding of `LogsCommand::logs` (src/src/commands/logs.rs:59-91). The
client calls `get_app_id` and `get_channel_id` and the whole of
`fetch_logs_and_print_loop` are function parameters; the boolean in the result
records whether the fetch loop was invoked at all. -/
def LogsCommand.logs {E : Type} (app : List Char)
    (get_app_id : Except E (Option Nat))
    (get_channel_id : Nat → Except E Nat)
    (run_loop : Nat → Except E Unit) :
    Except (LogsError E) Unit × Bool :=
  match get_app_id with
  | .error e => (.error (.appNotFound app (some e)), false)
  | .ok none => (.error (.appNotFound app none), false)
  | .ok (some app_id) =>
    match get_channel_id app_id with
    | .error e => (.error (.channelNotFound app e), false)
    | .ok channel_id =>
      match run_loop channel_id with
      | .error e => (.error (.loopFailed e), true)
      | .ok _ => (.ok (), true)

/-- A log line carries both its timestamp and its text. -/
def linePresent (l : LogLine) : Bool := l.line.isSome && l.time.isSome

/-- An entry carries its line list and every line is fully present. -/
def entryPresent (e : Entry) : Bool :=
  match e.log_lines with
  | some ls => ls.all linePresent
  | none => false

/-- Every entry of the batch is fully present (the API invariant the code's
unwraps rely on). -/
def allPresent (entries : List Entry) : Bool := entries.all entryPresent

/-- Texts of the lines of one entry, in stored order. -/
def entryTexts (e : Entry) : List (List Char) :=
  (e.log_lines.getD []).map fun l => l.line.getD []

/-- Timestamps of the lines of one entry, in stored order. -/
def entryTimes (e : Entry) : List (List Char) :=
  (e.log_lines.getD []).map fun l => l.time.getD []

/-- Trace shape of the follow loop after its first fetch: sleeps of the
configured interval alternating with fetches that pass max_lines = None. -/
def followShape (interval : Nat) : List LoopEvent → Bool
  | [] => true
  | LoopEvent.sleepEv n :: LoopEvent.fetchEv none _ :: rest =>
    n = interval && followShape interval rest
  | _ => false

example : natChars 30 = ['3', '0'] := by decide
example : natChars 0 = ['0'] := by decide
example : parse_duration ("300s".toList) = .ok 300 := by decide
example : parse_duration ("5m".toList) = .ok 300 := by decide
example : parse_duration ("4h".toList) = .ok 14400 := by decide
example : parse_duration ("1d".toList) = .ok 86400 := by decide
example : exceptOk (parse_duration ("1h30m".toList)) = false := by decide
example : exceptOk (parse_duration ("abc".toList)) = false := by decide
example : exceptOk (parse_duration ("10".toList)) = false := by decide
example : exceptOk (parse_interval ("1".toList)) = false := by decide
example : parse_interval ("2".toList) = .ok 2 := by decide
example : parse_interval ("100".toList) = .ok 100 := by decide
example : parseU64 ("+10".toList) = some 10 := by decide

/-! Lemmas about decimal numerals and the u64 parser. -/

theorem charDigitVal_digitChar {d : Nat} (hd : d < 10) :
    charDigitVal (Nat.digitChar d) = d := by
  interval_cases d <;> decide

theorem isDigit_digitChar {d : Nat} (hd : d < 10) :
    (Nat.digitChar d).isDigit = true := by
  interval_cases d <;> decide

theorem natCharsAux_all_isDigit :
    ∀ fuel n, (natCharsAux fuel n).all Char.isDigit = true := by
  intro fuel
  induction fuel with
  | zero => intro n; rfl
  | succ fuel ih =>
    intro n
    by_cases hn : n = 0
    · simp [natCharsAux, hn]
    · have h10 : n % 10 < 10 := Nat.mod_lt _ (by norm_num)
      simp [natCharsAux, hn, List.all_append, ih, isDigit_digitChar h10]

theorem foldl_natCharsAux :
    ∀ fuel n a, n ≤ fuel →
      (natCharsAux fuel n).foldl (fun a c => a * 10 + charDigitVal c) a
        = a * 10 ^ (natCharsAux fuel n).length + n := by
  intro fuel
  induction fuel with
  | zero =>
    intro n a h
    have hn : n = 0 := Nat.le_zero.mp h
    subst hn
    simp [natCharsAux]
  | succ fuel ih =>
    intro n a h
    by_cases hn : n = 0
    · subst hn; simp [natCharsAux]
    · have hpos : 0 < n := Nat.pos_of_ne_zero hn
      have hlt : n / 10 < n := Nat.div_lt_self hpos (by norm_num)
      have hle : n / 10 ≤ fuel := by omega
      have h10 : n % 10 < 10 := Nat.mod_lt _ (by norm_num)
      have hdm : 10 * (n / 10) + n % 10 = n := Nat.div_add_mod n 10
      simp only [natCharsAux, if_neg hn, List.foldl_append, List.foldl_cons,
        List.foldl_nil, List.length_append, List.length_cons, List.length_nil]
      rw [ih (n / 10) a hle, charDigitVal_digitChar h10]
      have hring : (a * 10 ^ (natCharsAux fuel (n / 10)).length + n / 10) * 10 + n % 10
          = a * (10 ^ (natCharsAux fuel (n / 10)).length * 10) + (10 * (n / 10) + n % 10) := by
        ring
      rw [hring, hdm, pow_succ]

theorem natCharsAux_ne_nil {fuel n : Nat} (h : n ≤ fuel) (hn : n ≠ 0) :
    natCharsAux fuel n ≠ [] := by
  cases fuel with
  | zero => omega
  | succ fuel => simp [natCharsAux, hn]

theorem natChars_spec (n : Nat) :
    (natChars n).all Char.isDigit = true ∧ natChars n ≠ [] ∧
      digitsVal (natChars n) = n := by
  by_cases hn : n = 0
  · subst hn; refine ⟨by decide, by decide, by decide⟩
  · unfold natChars
    rw [if_neg hn]
    refine ⟨natCharsAux_all_isDigit n n, natCharsAux_ne_nil le_rfl hn, ?_⟩
    have h := foldl_natCharsAux n n 0 le_rfl
    simpa [digitsVal] using h

theorem parseU64_natChars {n : Nat} (h : n < U64SIZE) :
    parseU64 (natChars n) = some n := by
  obtain ⟨hall, hne, hval⟩ := natChars_spec n
  cases hcs : natChars n with
  | nil => exact absurd hcs hne
  | cons c rest =>
    rw [hcs] at hall hval
    have hcdig : c.isDigit = true := by
      simp [List.all_cons] at hall
      exact hall.1
    have hplus : c ≠ '+' := by
      intro hc
      rw [hc] at hcdig
      exact absurd hcdig (by decide)
    simp only [parseU64, if_neg hplus, parseU64core]
    rw [if_neg (by simp), if_pos hall, hval, if_pos h]

/-! Lemmas about suffix stripping. -/

theorem stripSuffix_last_eq (p : List Char) (c : Char) :
    stripSuffix (p ++ [c]) c = some p := by
  simp [stripSuffix, List.reverse_append]

theorem stripSuffix_last_ne (p : List Char) {c c' : Char} (h : c ≠ c') :
    stripSuffix (p ++ [c]) c' = none := by
  simp [stripSuffix, List.reverse_append, h]

theorem eq_append_of_stripSuffix {cs p : List Char} {c : Char}
    (h : stripSuffix cs c = some p) : cs = p ++ [c] := by
  unfold stripSuffix at h
  split at h
  · exact Option.noConfusion h
  · rename_i x rest hr
    split at h
    · rename_i hx
      have hp : rest.reverse = p := by injection h
      have hcs : cs = (x :: rest).reverse := by
        rw [← hr, List.reverse_reverse]
      rw [hcs, List.reverse_cons, hp, hx]
    · exact Option.noConfusion h

/-! Lemmas about the duration parser. -/

theorem parse_duration_seconds {n : Nat} (h : n < U64SIZE) :
    parse_duration (natChars n ++ ['s']) = .ok n := by
  simp [parse_duration, stripSuffix_last_eq, parseU64_natChars h]

theorem parse_duration_minutes {n : Nat} (h : n * 60 < U64SIZE) :
    parse_duration (natChars n ++ ['m']) = .ok (n * 60) := by
  have hn : n < U64SIZE := by
    have : n ≤ n * 60 := Nat.le_mul_of_pos_right n (by norm_num)
    omega
  simp [parse_duration, stripSuffix_last_ne (natChars n) (show ('m' : Char) ≠ 's' by decide),
    stripSuffix_last_eq, parseU64_natChars hn, Nat.mod_eq_of_lt h]

theorem parse_duration_hours {n : Nat} (h : n * 3600 < U64SIZE) :
    parse_duration (natChars n ++ ['h']) = .ok (n * 3600) := by
  have hn : n < U64SIZE := by
    have : n ≤ n * 3600 := Nat.le_mul_of_pos_right n (by norm_num)
    omega
  have hmul : n * 60 * 60 = n * 3600 := by ring
  simp [parse_duration, stripSuffix_last_ne (natChars n) (show ('h' : Char) ≠ 's' by decide),
    stripSuffix_last_ne (natChars n) (show ('h' : Char) ≠ 'm' by decide),
    stripSuffix_last_eq, parseU64_natChars hn, hmul, Nat.mod_eq_of_lt h]

theorem parse_duration_days {n : Nat} (h : n * 86400 < U64SIZE) :
    parse_duration (natChars n ++ ['d']) = .ok (n * 86400) := by
  have hn : n < U64SIZE := by
    have : n ≤ n * 86400 := Nat.le_mul_of_pos_right n (by norm_num)
    omega
  have hmul : n * 24 * 60 * 60 = n * 86400 := by ring
  simp [parse_duration, stripSuffix_last_ne (natChars n) (show ('d' : Char) ≠ 's' by decide),
    stripSuffix_last_ne (natChars n) (show ('d' : Char) ≠ 'm' by decide),
    stripSuffix_last_ne (natChars n) (show ('d' : Char) ≠ 'h' by decide),
    stripSuffix_last_eq, parseU64_natChars hn, hmul, Nat.mod_eq_of_lt h]

theorem isDurationForm_append (p : List Char) (c : Char) :
    isDurationForm (p ++ [c])
      = ((c = 's' || c = 'm' || c = 'h' || c = 'd') && (parseU64 p).isSome) := by
  simp [isDurationForm, List.reverse_append]

theorem parse_duration_err_of_not_form {arg : List Char}
    (h : isDurationForm arg = false) : exceptOk (parse_duration arg) = false := by
  unfold parse_duration
  cases hs : stripSuffix arg 's' with
  | some p =>
    have harg := eq_append_of_stripSuffix hs
    subst harg
    rw [isDurationForm_append] at h
    simp at h
    simp [h, exceptOk]
  | none =>
    cases hm : stripSuffix arg 'm' with
    | some p =>
      have harg := eq_append_of_stripSuffix hm
      subst harg
      rw [isDurationForm_append] at h
      simp at h
      simp [h, exceptOk]
    | none =>
      cases hh : stripSuffix arg 'h' with
      | some p =>
        have harg := eq_append_of_stripSuffix hh
        subst harg
        rw [isDurationForm_append] at h
        simp at h
        simp [h, exceptOk]
      | none =>
        cases hd : stripSuffix arg 'd' with
        | some p =>
          have harg := eq_append_of_stripSuffix hd
          subst harg
          rw [isDurationForm_append] at h
          simp at h
          simp [h, exceptOk]
        | none => rfl

/-! Lemmas about the printing step. -/

theorem getLastD_append {α : Type} (l1 l2 : List α) (d : α) :
    (l1 ++ l2).getLastD d = l2.getLastD (l1.getLastD d) := by
  induction l1 generalizing d with
  | nil => simp
  | cons a l1 ih =>
    simp only [List.cons_append, List.getLastD_cons]
    exact ih a

theorem printEntryLines_of_all :
    ∀ (ls : List LogLine), ls.all linePresent = true → ∀ out s,
      printEntryLines ls (out, s)
        = some (out ++ ls.map (fun l => l.line.getD []),
                (ls.map (fun l => l.time.getD [])).getLastD s) := by
  intro ls
  induction ls with
  | nil => intro _ out s; simp [printEntryLines]
  | cons l ls ih =>
    intro hall out s
    simp only [List.all_cons, Bool.and_eq_true] at hall
    obtain ⟨hl, hls⟩ := hall
    unfold linePresent at hl
    rw [Bool.and_eq_true] at hl
    obtain ⟨hline, htime⟩ := hl
    obtain ⟨txt, htxt⟩ := Option.isSome_iff_exists.mp hline
    obtain ⟨t, ht⟩ := Option.isSome_iff_exists.mp htime
    simp only [printEntryLines, htxt, ht]
    rw [ih hls (out ++ [txt]) t]
    simp only [List.map_cons, htxt, ht, Option.getD_some, List.getLastD_cons,
      List.append_assoc, List.singleton_append]

theorem printEntryLines_none_of_missing :
    ∀ (ls : List LogLine), ls.all linePresent = false → ∀ acc,
      printEntryLines ls acc = none := by
  intro ls
  induction ls with
  | nil => intro h acc; simp at h
  | cons l ls ih =>
    intro h acc
    simp only [List.all_cons] at h
    cases hline : l.line with
    | none => simp [printEntryLines, hline]
    | some txt =>
      cases htime : l.time with
      | none => simp [printEntryLines, hline, htime]
      | some t =>
        have hlp : linePresent l = true := by simp [linePresent, hline, htime]
        rw [hlp, Bool.true_and] at h
        simp [printEntryLines, hline, htime, ih h]

theorem printEntriesRev_of_all :
    ∀ (es : List Entry), es.all entryPresent = true → ∀ out s,
      printEntriesRev es (out, s)
        = some (out ++ (es.map entryTexts).flatten,
                ((es.map entryTimes).flatten).getLastD s) := by
  intro es
  induction es with
  | nil => intro _ out s; simp [printEntriesRev]
  | cons e es ih =>
    intro hall out s
    simp only [List.all_cons, Bool.and_eq_true] at hall
    obtain ⟨he, hes⟩ := hall
    unfold entryPresent at he
    cases hlog : e.log_lines with
    | none => rw [hlog] at he; cases he
    | some ls =>
      rw [hlog] at he
      simp only [printEntriesRev, hlog, printEntryLines_of_all ls he out s]
      rw [ih hes]
      have htexts : entryTexts e = ls.map (fun l => l.line.getD []) := by
        simp [entryTexts, hlog]
      have htimes : entryTimes e = ls.map (fun l => l.time.getD []) := by
        simp [entryTimes, hlog]
      rw [List.map_cons, List.map_cons, List.flatten_cons, List.flatten_cons,
        htexts, htimes, getLastD_append, List.append_assoc]

theorem printEntriesRev_none_of_missing :
    ∀ (es : List Entry), es.all entryPresent = false → ∀ acc,
      printEntriesRev es acc = none := by
  intro es
  induction es with
  | nil => intro h acc; simp at h
  | cons e es ih =>
    intro h acc
    obtain ⟨out, s⟩ := acc
    simp only [List.all_cons] at h
    cases hlog : e.log_lines with
    | none => simp [printEntriesRev, hlog]
    | some ls =>
      cases hls : ls.all linePresent with
      | false =>
        simp [printEntriesRev, hlog, printEntryLines_none_of_missing ls hls (out, s)]
      | true =>
        have hep : entryPresent e = true := by simp [entryPresent, hlog, hls]
        rw [hep, Bool.true_and] at h
        simp only [printEntriesRev, hlog, printEntryLines_of_all ls hls out s]
        exact ih h _

theorem printEntriesRev_empty_lines :
    ∀ (es : List Entry), (∀ e ∈ es, e.log_lines = some []) → ∀ acc,
      printEntriesRev es acc = some acc := by
  intro es
  induction es with
  | nil => intro _ acc; rfl
  | cons e es ih =>
    intro h acc
    have he : e.log_lines = some [] := h e (by simp)
    simp only [printEntriesRev, he, printEntryLines]
    exact ih (fun e' he' => h e' (by simp [he'])) acc

theorem print_lastn_logs_of_all {entries : List Entry} (h : allPresent entries = true) :
    print_lastn_logs entries
      = some ((entries.reverse.map entryTexts).flatten,
              ((entries.reverse.map entryTimes).flatten).getLastD []) := by
  have h' : entries.reverse.all entryPresent = true := by
    rw [List.all_reverse]
    exact h
  exact printEntriesRev_of_all entries.reverse h' [] []

theorem print_lastn_logs_none_of_missing {entries : List Entry}
    (h : allPresent entries = false) : print_lastn_logs entries = none := by
  have h' : entries.reverse.all entryPresent = false := by
    rw [List.all_reverse]
    exact h
  exact printEntriesRev_none_of_missing entries.reverse h' _

/-! Lemmas about the single fetch-and-print step and the polling loop. -/

theorem fetch_once_error {E : Type}
    {fetch : Option Int → List Char → Except E (List Entry)}
    {ml : Option Int} {s : List Char} {e : E}
    (h : fetch_logs_and_print_once fetch ml s = .error e) : fetch ml s = .error e := by
  unfold fetch_logs_and_print_once at h
  cases hf : fetch ml s with
  | error e' =>
    simp only [hf] at h
    injection h with h2
    rw [h2]
  | ok entries =>
    simp only [hf] at h
    split at h <;> exact Except.noConfusion h

theorem fetch_once_not_panicked {E : Type}
    {fetch : Option Int → List Char → Except E (List Entry)}
    (hwf : ∀ ml s entries, fetch ml s = .ok entries → allPresent entries = true)
    (ml : Option Int) (s : List Char) :
    fetch_logs_and_print_once fetch ml s ≠ .ok none := by
  unfold fetch_logs_and_print_once
  cases hf : fetch ml s with
  | error e => exact fun h => Except.noConfusion h
  | ok entries =>
    have hap := hwf ml s entries hf
    by_cases he : entries.isEmpty
    · simp [he]
    · simp [he, print_lastn_logs_of_all hap]

theorem fetch_once_ok_some {E : Type}
    {fetch : Option Int → List Char → Except E (List Entry)}
    {ml : Option Int} {s : List Char} {entries : List Entry}
    (hf : fetch ml s = .ok entries) (hap : allPresent entries = true) :
    ∃ p, fetch_logs_and_print_once fetch ml s = .ok (some p) := by
  unfold fetch_logs_and_print_once
  simp only [hf]
  by_cases he : entries.isEmpty
  · exact ⟨([], s), by rw [if_pos he]⟩
  · refine ⟨((entries.reverse.map entryTexts).flatten,
        ((entries.reverse.map entryTimes).flatten).getLastD []), ?_⟩
    rw [if_neg he, print_lastn_logs_of_all hap]

theorem loopFollow_shape {E : Type}
    (fetch : Option Int → List Char → Except E (List Entry)) (interval : Nat) :
    ∀ fuel s, followShape interval (loopFollow fetch interval fuel s).1 = true := by
  intro fuel
  induction fuel with
  | zero => intro s; rfl
  | succ fuel ih =>
    intro s
    cases hf : fetch_logs_and_print_once fetch none s with
    | error e => simp [loopFollow, hf, followShape]
    | ok r =>
      cases r with
      | none => simp [loopFollow, hf, followShape]
      | some p =>
        obtain ⟨out, s2⟩ := p
        simp [loopFollow, hf, followShape, ih s2]

theorem loopFollow_ne_ok {E : Type}
    (fetch : Option Int → List Char → Except E (List Entry)) (interval : Nat) :
    ∀ fuel s, (loopFollow fetch interval fuel s).2 ≠ LoopOutcome.ok := by
  intro fuel
  induction fuel with
  | zero => intro s; simp [loopFollow]
  | succ fuel ih =>
    intro s
    cases hf : fetch_logs_and_print_once fetch none s with
    | error e => simp [loopFollow, hf]
    | ok r =>
      cases r with
      | none => simp [loopFollow, hf]
      | some p =>
        obtain ⟨out, s2⟩ := p
        simp only [loopFollow, hf]
        exact ih s2

theorem loopFollow_ne_panicked {E : Type}
    {fetch : Option Int → List Char → Except E (List Entry)}
    (hwf : ∀ ml s entries, fetch ml s = .ok entries → allPresent entries = true)
    (interval : Nat) :
    ∀ fuel s, (loopFollow fetch interval fuel s).2 ≠ LoopOutcome.panicked := by
  intro fuel
  induction fuel with
  | zero => intro s; simp [loopFollow]
  | succ fuel ih =>
    intro s
    cases hf : fetch_logs_and_print_once fetch none s with
    | error e => simp [loopFollow, hf]
    | ok r =>
      cases r with
      | none => exact absurd hf (fetch_once_not_panicked hwf none s)
      | some p =>
        obtain ⟨out, s2⟩ := p
        simp only [loopFollow, hf]
        exact ih s2

theorem getLast?_cons_of_some {α : Type} {l : List α} {x y : α}
    (h : l.getLast? = some y) : (x :: l).getLast? = some y := by
  cases l with
  | nil => exact Option.noConfusion h
  | cons a l =>
    rw [List.getLast?_cons_cons]
    exact h

theorem loopFollow_err_last {E : Type}
    {fetch : Option Int → List Char → Except E (List Entry)} {interval : Nat} :
    ∀ fuel s e, (loopFollow fetch interval fuel s).2 = LoopOutcome.err e →
      ∃ s', (loopFollow fetch interval fuel s).1.getLast?
          = some (LoopEvent.fetchEv none s') ∧ fetch none s' = .error e := by
  intro fuel
  induction fuel with
  | zero => intro s e h; exact absurd h (by simp [loopFollow])
  | succ fuel ih =>
    intro s e h
    cases hf : fetch_logs_and_print_once fetch none s with
    | error e' =>
      simp only [loopFollow, hf] at h ⊢
      have he : e' = e := by injection h
      refine ⟨s, ?_, ?_⟩
      · rw [List.getLast?_cons_cons]
        rfl
      · rw [← he]
        exact fetch_once_error hf
    | ok r =>
      cases r with
      | none =>
        simp only [loopFollow, hf] at h
        exact absurd h (by simp)
      | some p =>
        obtain ⟨out, s2⟩ := p
        simp only [loopFollow, hf] at h ⊢
        obtain ⟨s', hlast, herr⟩ := ih s2 e h
        exact ⟨s', getLast?_cons_of_some (getLast?_cons_of_some hlast), herr⟩

/-! The claims. -/

/-- C1 (amended): for every list of returned entries (whose lines all carry their
fields), the print step iterates the entries in reverse order, printing each
entry's lines in their stored order, and returns as the new cursor the timestamp
of the last line printed; in particular, for entries
[{lines:[{t:"T1",v:"a"}]}, {lines:[{t:"T2",v:"b"}]}] it prints "b" then "a" and
the new cursor is "T1". -/
theorem C1_print_reverse_order :
    (∀ entries : List Entry, allPresent entries = true →
        print_lastn_logs entries
          = some ((entries.reverse.map entryTexts).flatten,
                  ((entries.reverse.map entryTimes).flatten).getLastD [])) ∧
      print_lastn_logs
          [⟨some [⟨some ['T', '1'], some ['a']⟩]⟩,
           ⟨some [⟨some ['T', '2'], some ['b']⟩]⟩]
        = some ([['b'], ['a']], ['T', '1']) := by
  constructor
  · intro entries h
    exact print_lastn_logs_of_all h
  · decide

/-- C1 counterexample: on the entries of the claim's example the print step does
not print "a" then "b" with new cursor "T2" (it prints "b" then "a" and returns
"T1"). -/
theorem C1_counterexample :
    print_lastn_logs
        [⟨some [⟨some ['T', '1'], some ['a']⟩]⟩,
         ⟨some [⟨some ['T', '2'], some ['b']⟩]⟩]
      ≠ some ([['a'], ['b']], ['T', '2']) := by decide

/-- C1 witness: the general part of the amended claim evaluated on a concrete
one-entry batch. -/
theorem C1_witness :
    print_lastn_logs [⟨some [⟨some ['T', '1'], some ['a']⟩]⟩]
      = some ([['a']], ['T', '1']) := by
  have h := C1_print_reverse_order.1
    [⟨some [⟨some ['T', '1'], some ['a']⟩]⟩] (by decide)
  rw [h]
  decide

/-- C2: a fetch that returns an empty entries list leaves the cursor unchanged
and prints nothing. -/
theorem C2_empty_entries_cursor_unchanged (E : Type)
    (fetch : Option Int → List Char → Except E (List Entry))
    (ml : Option Int) (since : List Char)
    (h : fetch ml since = .ok []) :
    fetch_logs_and_print_once fetch ml since = .ok (some ([], since)) := by
  unfold fetch_logs_and_print_once
  simp only [h]
  rfl

/-- C2 witness: concrete empty fetch. -/
theorem C2_witness :
    fetch_logs_and_print_once
        ((fun _ _ => Except.ok []) : Option Int → List Char → Except Unit (List Entry))
        (some 10) ['X']
      = Except.ok (some ([], ['X'])) :=
  C2_empty_entries_cursor_unchanged Unit (fun _ _ => Except.ok []) (some 10) ['X'] rfl

/-- C3 (amended): the duration parser maps "<n>s" to n seconds for every n below
2^64, "<n>m" to n*60 for every n with n*60 below 2^64, "<n>h" to n*3600 for every
n with n*3600 below 2^64, and "<n>d" to n*86400 for every n with n*86400 below
2^64 (the numeric prefix is parsed as a Rust u64, which bounds it by 2^64). -/
theorem C3_duration_units :
    (∀ n : Nat, n < U64SIZE → parse_duration (natChars n ++ ['s']) = .ok n) ∧
    (∀ n : Nat, n * 60 < U64SIZE → parse_duration (natChars n ++ ['m']) = .ok (n * 60)) ∧
    (∀ n : Nat, n * 3600 < U64SIZE → parse_duration (natChars n ++ ['h']) = .ok (n * 3600)) ∧
    (∀ n : Nat, n * 86400 < U64SIZE → parse_duration (natChars n ++ ['d']) = .ok (n * 86400)) :=
  ⟨fun _ h => parse_duration_seconds h, fun _ h => parse_duration_minutes h,
   fun _ h => parse_duration_hours h, fun _ h => parse_duration_days h⟩

/-- C3 counterexample: for n = 2^64 the string "<n>s" is not parsed to n seconds
(the u64 parse of the numeric prefix fails), refuting the claim for every
non-negative integer n. -/
theorem C3_counterexample :
    parse_duration (natChars (2 ^ 64) ++ ['s']) ≠ Except.ok (2 ^ 64) := by decide

/-- C3 witness: "30m" parses to 1800 seconds. -/
theorem C3_witness : parse_duration (natChars 30 ++ ['m']) = Except.ok 1800 :=
  C3_duration_units.2.1 30 (by decide)

/-- C4: the duration parser fails on every string that is not a u64 numeral
followed by exactly one of the suffixes s, m, h, d; in particular on "1h30m",
"abc" and "10". -/
theorem C4_duration_rejects_bad_forms :
    (∀ arg : List Char, isDurationForm arg = false →
        exceptOk (parse_duration arg) = false) ∧
      exceptOk (parse_duration ("1h30m".toList)) = false ∧
      exceptOk (parse_duration ("abc".toList)) = false ∧
      exceptOk (parse_duration ("10".toList)) = false :=
  ⟨fun _ h => parse_duration_err_of_not_form h, by decide, by decide, by decide⟩

/-- C4 witness: "x5q" is rejected. -/
theorem C4_witness : exceptOk (parse_duration ['x', '5', 'q']) = false :=
  C4_duration_rejects_bad_forms.1 ['x', '5', 'q'] (by decide)

/-- C5: the interval validator parses its input as a u64 and succeeds exactly on
values of at least 2; in particular "1" fails, "2" returns 2, "100" returns 100. -/
theorem C5_interval_floor :
    (∀ (arg : List Char) (v : Nat),
        parse_interval arg = .ok v ↔ parseU64 arg = some v ∧ 2 ≤ v) ∧
      exceptOk (parse_interval ("1".toList)) = false ∧
      parse_interval ("2".toList) = .ok 2 ∧
      parse_interval ("100".toList) = .ok 100 := by
  refine ⟨?_, by decide, by decide, by decide⟩
  intro arg v
  cases hp : parseU64 arg with
  | none =>
    unfold parse_interval
    simp only [hp]
    simp
  | some w =>
    unfold parse_interval
    simp only [hp]
    by_cases hw : w < 2
    · rw [if_pos hw]
      constructor
      · intro hc
        exact Except.noConfusion hc
      · rintro ⟨hv, h2⟩
        injection hv with hv
        omega
    · rw [if_neg hw]
      constructor
      · intro hc
        injection hc with hc
        subst hc
        exact ⟨rfl, by omega⟩
      · rintro ⟨hv, h2⟩
        injection hv with hv
        rw [hv]

/-- C6: with follow = true (and the API invariant that returned lines carry
their fields), the loop fetches first with the configured max_lines, then each
subsequent fetch uses max_lines = None and is preceded by a sleep of the
configured interval; the outcome is never a normal return, and an error outcome
is the propagated error of the last fetch performed. -/
theorem C6_follow_loop (E : Type)
    (fetch : Option Int → List Char → Except E (List Entry))
    (interval : Nat) (ml : Option Int) (s0 : List Char) (fuel : Nat)
    (hwf : ∀ ml' s' entries, fetch ml' s' = .ok entries → allPresent entries = true) :
    (∃ rest, (fetch_logs_and_print_loop fetch true interval ml s0 fuel).1
        = LoopEvent.fetchEv ml s0 :: rest ∧ followShape interval rest = true) ∧
    (fetch_logs_and_print_loop fetch true interval ml s0 fuel).2 ≠ LoopOutcome.ok ∧
    (∀ e, (fetch_logs_and_print_loop fetch true interval ml s0 fuel).2 = LoopOutcome.err e →
      ∃ ml' s', (fetch_logs_and_print_loop fetch true interval ml s0 fuel).1.getLast?
          = some (LoopEvent.fetchEv ml' s') ∧ fetch ml' s' = .error e) := by
  cases hf : fetch_logs_and_print_once fetch ml s0 with
  | error e0 =>
    have hloop : fetch_logs_and_print_loop fetch true interval ml s0 fuel
        = ([LoopEvent.fetchEv ml s0], LoopOutcome.err e0) := by
      unfold fetch_logs_and_print_loop
      simp only [hf]
    refine ⟨⟨[], by rw [hloop], rfl⟩, by rw [hloop]; simp, ?_⟩
    intro e he
    rw [hloop] at he
    have he0 : e0 = e := by
      simpa using he
    refine ⟨ml, s0, ?_, ?_⟩
    · rw [hloop]
      rfl
    · rw [← he0]
      exact fetch_once_error hf
  | ok r =>
    cases r with
    | none => exact absurd hf (fetch_once_not_panicked hwf ml s0)
    | some p =>
      obtain ⟨out, s1⟩ := p
      have hloop : fetch_logs_and_print_loop fetch true interval ml s0 fuel
          = (LoopEvent.fetchEv ml s0 :: (loopFollow fetch interval fuel s1).1,
             (loopFollow fetch interval fuel s1).2) := by
        unfold fetch_logs_and_print_loop
        simp only [hf]
        simp
      refine ⟨⟨(loopFollow fetch interval fuel s1).1, by rw [hloop],
        loopFollow_shape fetch interval fuel s1⟩, ?_, ?_⟩
      · rw [hloop]
        exact loopFollow_ne_ok fetch interval fuel s1
      · intro e he
        rw [hloop] at he
        obtain ⟨s', hlast, herr⟩ := loopFollow_err_last fuel s1 e he
        refine ⟨none, s', ?_, herr⟩
        rw [hloop]
        exact getLast?_cons_of_some hlast

/-- C6 witness: one unrolled follow iteration over a client that always returns
an empty batch never reaches a normal return. -/
theorem C6_witness :
    (fetch_logs_and_print_loop
        ((fun _ _ => Except.ok []) : Option Int → List Char → Except Unit (List Entry))
        true 2 (some 10) ['X'] 1).2 ≠ LoopOutcome.ok :=
  (C6_follow_loop Unit (fun _ _ => Except.ok []) 2 (some 10) ['X'] 1
    (fun _ _ entries hok => by
      injection hok with h2
      rw [← h2]
      rfl)).2.1

/-- C7: with follow = false the loop performs exactly one fetch and returns
successfully, whatever entries that fetch returned. -/
theorem C7_no_follow_single_fetch (E : Type)
    (fetch : Option Int → List Char → Except E (List Entry))
    (interval : Nat) (ml : Option Int) (s0 : List Char) (fuel : Nat)
    (entries : List Entry)
    (hf : fetch ml s0 = .ok entries) (hap : allPresent entries = true) :
    fetch_logs_and_print_loop fetch false interval ml s0 fuel
      = ([LoopEvent.fetchEv ml s0], LoopOutcome.ok) := by
  obtain ⟨p, hp⟩ := fetch_once_ok_some hf hap
  unfold fetch_logs_and_print_loop
  simp only [hp]
  rfl

/-- C7 witness: concrete single-shot run. -/
theorem C7_witness :
    fetch_logs_and_print_loop
        ((fun _ _ => Except.ok []) : Option Int → List Char → Except Unit (List Entry))
        false 2 (some 10) ['X'] 5
      = ([LoopEvent.fetchEv (some 10) ['X']], LoopOutcome.ok) :=
  C7_no_follow_single_fetch Unit (fun _ _ => Except.ok []) 2 (some 10) ['X'] 5 [] rfl rfl

/-- C8: a returned batch in which some entry is missing its line list, or some
line is missing its timestamp or its text, makes the print step fail fast (an
unwrap panic) instead of printing with that line skipped. -/
theorem C8_missing_field_panics :
    ∀ entries : List Entry,
      (∃ e ∈ entries, e.log_lines = none ∨
        ∃ ls, e.log_lines = some ls ∧ ∃ l ∈ ls, l.time = none ∨ l.line = none) →
      print_lastn_logs entries = none := by
  intro entries h
  apply print_lastn_logs_none_of_missing
  cases hall : allPresent entries with
  | false => rfl
  | true =>
    exfalso
    obtain ⟨e, he, hcase⟩ := h
    have hall' := hall
    unfold allPresent at hall'
    rw [List.all_eq_true] at hall'
    have hep := hall' e he
    rcases hcase with hnone | ⟨ls, hls, l, hl, hbad⟩
    · rw [entryPresent, hnone] at hep
      exact Bool.noConfusion hep
    · rw [entryPresent, hls, List.all_eq_true] at hep
      have hlp := hep l hl
      rcases hbad with ht | hl2
      · rw [linePresent, ht] at hlp
        simp at hlp
      · rw [linePresent, hl2] at hlp
        simp at hlp

/-- C8 witness: an entry whose line list is missing makes the print step panic. -/
theorem C8_witness : print_lastn_logs [(⟨none⟩ : Entry)] = none :=
  C8_missing_field_panics [⟨none⟩] ⟨⟨none⟩, by decide, Or.inl rfl⟩

/-- C9: a fetch returning a non-empty batch whose entries all have empty line
lists prints nothing and returns the empty string as the new cursor, discarding
the previous cursor value. -/
theorem C9_all_empty_lines_resets_cursor (E : Type)
    (fetch : Option Int → List Char → Except E (List Entry))
    (ml : Option Int) (since : List Char) (entries : List Entry)
    (hne : entries ≠ [])
    (hempty : ∀ e ∈ entries, e.log_lines = some [])
    (hf : fetch ml since = .ok entries) :
    fetch_logs_and_print_once fetch ml since = .ok (some ([], [])) := by
  unfold fetch_logs_and_print_once
  simp only [hf]
  have hie : ¬(entries.isEmpty = true) := fun hx => hne (List.isEmpty_iff.mp hx)
  rw [if_neg hie]
  unfold print_lastn_logs
  rw [printEntriesRev_empty_lines entries.reverse
    (fun e he => hempty e (List.mem_reverse.mp he)) ([], [])]

/-- C9 witness: one entry with an empty line list; the previous cursor "X" is
replaced by the empty string. -/
theorem C9_witness :
    fetch_logs_and_print_once
        ((fun _ _ => Except.ok [⟨some []⟩]) :
          Option Int → List Char → Except Unit (List Entry))
        (some 10) ['X']
      = Except.ok (some ([], [])) :=
  C9_all_empty_lines_resets_cursor Unit (fun _ _ => Except.ok [⟨some []⟩])
    (some 10) ['X'] [⟨some []⟩] (by decide) (by decide) rfl

/-- C10: when app-id resolution returns no identifier, the command fails with a
"not found" error naming the app and the fetch loop is never invoked. -/
theorem C10_app_not_found (E : Type) (app : List Char)
    (get_app_id : Except E (Option Nat))
    (get_channel_id : Nat → Except E Nat) (run_loop : Nat → Except E Unit)
    (h : get_app_id = .ok none) :
    LogsCommand.logs app get_app_id get_channel_id run_loop
      = (.error (.appNotFound app none), false) := by
  subst h
  rfl

/-- C10 witness: concrete app name with a client that resolves it to nothing. -/
theorem C10_witness :
    LogsCommand.logs ['m', 'y', 'a', 'p', 'p'] (Except.ok none)
        ((fun _ => Except.ok 0) : Nat → Except Unit Nat) (fun _ => Except.ok ())
      = (Except.error (LogsError.appNotFound ['m', 'y', 'a', 'p', 'p'] none), false) :=
  C10_app_not_found Unit ['m', 'y', 'a', 'p', 'p'] (Except.ok none)
    (fun _ => Except.ok 0) (fun _ => Except.ok ()) rfl
